import Mathlib

set_option autoImplicit false

namespace NNTPClient

/-- A byte of the wire stream, as its unsigned 8-bit value. The code only
stores and compares bytes (no arithmetic), so the natural-number value is a
faithful representation. -/
abbrev Byte := Nat

/-- Embeds the ringBuffer struct of src/client/ringbuffer.go (lines 11-16). -/
structure ringBuffer where
  Capacity : Nat
  Buffer : List Byte
  position : Nat
  used : Nat
deriving DecidableEq

/-- Embeds newRingBuffer (ringbuffer.go lines 3-9): a zeroed buffer of the
given capacity, with position and used both 0. -/
def newRingBuffer (cap : Nat) : ringBuffer :=
  { Capacity := cap, Buffer := List.replicate cap 0, position := 0, used := 0 }

/-- Embeds ringBuffer.Write (ringbuffer.go lines 18-34): count is
min(Capacity, len(buf)), start is len(buf) - count, and the loop stores
buf[start+i] at index (position + i) % Capacity while incrementing used up to
Capacity. Note that the method never changes position. -/
def ringBuffer.Write (b : ringBuffer) (buf : List Byte) : ringBuffer :=
  let bufCount := buf.length
  let count := if b.Capacity > bufCount then bufCount else b.Capacity
  let start := bufCount - count
  (List.range count).foldl
    (fun acc i =>
      let bufferPos := (acc.position + i) % acc.Capacity
      { acc with
        Buffer := acc.Buffer.set bufferPos (buf.getD (start + i) 0),
        used := if acc.used < acc.Capacity then acc.used + 1 else acc.used })
    b

/-- Embeds ringBuffer.Equals (ringbuffer.go lines 36-49): false when the
lengths differ, otherwise compares Buffer[(position + i) % Capacity] with
buf[i] for i below used. -/
def ringBuffer.Equals (b : ringBuffer) (buf : List Byte) : Bool :=
  if buf.length ≠ b.used then false
  else (List.range b.used).all
    (fun i => b.Buffer.getD ((b.position + i) % b.Capacity) 0 == buf.getD i 0)

/-- Outcomes of readCompressed observable by its caller: the error returned by
the underlying Read is passed through (in this model the reader delivers its
chunk list and then end-of-stream, the io.EOF case), and a terminator match
after a chunk of fewer than 3 bytes makes the slice expression sl[0 : br-3]
a slice-bounds violation, which in Go is a runtime panic. -/
inductive ReadCompressedErr where
  | transport
  | sliceBounds
deriving DecidableEq

/-- The 3-byte envelope terminator ".\r\n" of compressed.go line 17, as byte
values: 46 is the dot, 13 is CR, 10 is LF. -/
def term : List Byte := [46, 13, 10]

/-- Embeds the loop of readCompressed (compressed.go lines 19-34). The
underlying reader is modelled as the list of chunks its successive Read calls
return, followed by end-of-stream; acc is the content written to the istream
accumulation buffer so far. Result: the error outcome (none meaning the
function returned nil) together with the final accumulation buffer contents. -/
def readCompressed (chunks : List (List Byte)) (rb : ringBuffer) (acc : List Byte) :
    Option ReadCompressedErr × List Byte :=
  match chunks with
  | [] => (some .transport, acc)
  | sl :: rest =>
    let rb2 := rb.Write sl
    if rb2.Equals term then
      if 3 ≤ sl.length then (none, acc ++ sl.take (sl.length - 3))
      else (some .sliceBounds, acc)
    else readCompressed rest rb2 (acc ++ sl)

/-- readCompressed as invoked from getCompressedReader (compressed.go lines
37-44): a fresh capacity-3 ring buffer and an empty accumulation buffer. -/
def readCompressedRun (chunks : List (List Byte)) : Option ReadCompressedErr × List Byte :=
  readCompressed chunks (newRingBuffer 3) []

/-- Splits a character list at every occurrence of the separator, like the Go
strings.Split with a one-character separator: the result always has at least
one element, and splitting the empty string yields one empty field. -/
def splitOnChar (sep : Char) : List Char → List (List Char)
  | [] => [[]]
  | c :: rest =>
    match splitOnChar sep rest with
    | [] => [[]]
    | f :: fs => if c = sep then [] :: f :: fs else (c :: f) :: fs

/-- Embeds strings.Split(line, "\t") as used by parseArticleOverview
(client.go line 317). -/
def splitTab (l : List Char) : List (List Char) := splitOnChar '\t' l

/-- Embeds strconv.ParseUint(s, 10, bitSize): succeeds exactly on a nonempty
all-digit string whose value fits in bitSize bits; anything else (empty
string, sign, non-digit, overflow) is an error. -/
def parseUintBits (l : List Char) (bitSize : Nat) : Option Nat :=
  if l = [] then none
  else if l.all (fun c => c.isDigit) then
    let n := l.foldl (fun acc c => acc * 10 + (c.toNat - 48)) 0
    if n < 2 ^ bitSize then some n else none
  else none

/-- Modelled from the spec: the timestamp type of the Overview Record. The
concrete time.Time lives outside this repository; per the data model a date
field left unset stays at the zero value, so the all-zero structure is the
zero timestamp. -/
structure Timestamp where
  year : Nat := 0
  month : Nat := 0
  day : Nat := 0
  hour : Nat := 0
  minute : Nat := 0
  second : Nat := 0
deriving DecidableEq

/-- Month-name lookup for the short RFC1123 layout. -/
def monthOfName (l : List Char) : Option Nat :=
  if l = ("Jan").data then some 1
  else if l = ("Feb").data then some 2
  else if l = ("Mar").data then some 3
  else if l = ("Apr").data then some 4
  else if l = ("May").data then some 5
  else if l = ("Jun").data then some 6
  else if l = ("Jul").data then some 7
  else if l = ("Aug").data then some 8
  else if l = ("Sep").data then some 9
  else if l = ("Oct").data then some 10
  else if l = ("Nov").data then some 11
  else if l = ("Dec").data then some 12
  else none

/-- Modelled from the spec: date parsing is consumed as an opaque external
"parse best-effort timestamp" function (dateparse.ParseAny, not part of this
repository). It is modelled on the short RFC1123 layout named by the
repository constants ("Mon, 02 Jan 06 15:04:05 MST", client.go line 259) and
fixed by the tests, which require "Thu, 03 Jan 19 18:58:44 UTC" to parse
successfully; two-digit years follow the Go convention (below 69 means
2000 + yy, otherwise 1900 + yy). Unrecognized shapes are errors. -/
def parseDate (l : List Char) : Option Timestamp :=
  match splitOnChar ' ' l with
  | [_weekday, d, mon, y, hms, _zone] =>
    match parseUintBits d 64, monthOfName mon, parseUintBits y 64, splitOnChar ':' hms with
    | some dd, some mm, some yy, [hh, mi, ss] =>
      match parseUintBits hh 64, parseUintBits mi 64, parseUintBits ss 64 with
      | some h, some m, some s =>
        some { year := if yy < 69 then 2000 + yy else 1900 + yy,
               month := mm, day := dd, hour := h, minute := m, second := s }
      | _, _, _ => none
    | _, _, _, _ => none
  | _ => none

/-- Embeds the OverHeader byte constants of client.go lines 21-32 as an
enumeration; the code only ever compares these values. -/
inductive OverHeader where
  | subject
  | frm
  | xrefFull
  | date
  | msgId
  | references
  | bytes
  | lines
deriving DecidableEq

/-- Modelled from the spec: the Overview Record (nntp.ArticleOverview) is
declared in the parent package of this repository, outside src/. Its fields
and their types are fixed by the setters in client.go lines 269-314: Id is a
64-bit identifier, Bytes and Lines are 32-bit counts parsed from text, Date a
timestamp, and the rest plain strings; every field starts at its zero value. -/
structure ArticleOverview where
  Id : Nat := 0
  Subject : List Char := []
  From : List Char := []
  Date : Timestamp := {}
  MessageId : List Char := []
  References : List Char := []
  Bytes : Nat := 0
  Lines : Nat := 0
  XRef : List Char := []
deriving DecidableEq

/-- Error kinds of the Overview Record Parser, per the spec taxonomy: the
identifier error is the strconv failure on the first field, the field error a
setter failure (unparseable date or number). -/
inductive ParseErr where
  | malformedIdentifier
  | fieldParseError
deriving DecidableEq

/-- Result of parseArticleOverview: the record, or the error kind returned. -/
inductive ParseResult where
  | ok (a : ArticleOverview)
  | err (e : ParseErr)
deriving DecidableEq

/-- Embeds the infoSetters table of client.go lines 269-314 as a dispatch on
the header tag: string fields are assigned directly; Date goes through
parseDate; Lines and Bytes go through ParseUint with bitSize 32, and a parse
failure aborts the record. -/
def applySetter (o : ArticleOverview) (h : OverHeader) (s : List Char) : ParseResult :=
  match h with
  | .subject => .ok { o with Subject := s }
  | .frm => .ok { o with From := s }
  | .date =>
    match parseDate s with
    | none => .err .fieldParseError
    | some d => .ok { o with Date := d }
  | .msgId => .ok { o with MessageId := s }
  | .references => .ok { o with References := s }
  | .lines =>
    match parseUintBits s 32 with
    | none => .err .fieldParseError
    | some n => .ok { o with Lines := n }
  | .xrefFull => .ok { o with XRef := s }
  | .bytes =>
    match parseUintBits s 32 with
    | none => .err .fieldParseError
    | some n => .ok { o with Bytes := n }

/-- Applies the setters of the loop of parseArticleOverview in position
order, stopping at the first failure. -/
def applySetters (o : ArticleOverview) : List (OverHeader × List Char) → ParseResult
  | [] => .ok o
  | (h, s) :: rest =>
    match applySetter o h s with
    | .err e => .err e
    | .ok o2 => applySetters o2 rest

/-- The body of parseArticleOverview after the tab split (client.go lines
318-333): items[0] is parsed as a 64-bit unsigned identifier, and the loop
for i from 1 while i < len(items) and i-1 < len(format) applies the setter of
format[i-1] to items[i], which is exactly a traversal of format zipped with
the items after the first. The empty-items case is unreachable, since
strings.Split never returns an empty slice. -/
def parseItems : List (List Char) → List OverHeader → ParseResult
  | [], _ => .err .malformedIdentifier
  | first :: rest, format =>
    match parseUintBits first 64 with
    | none => .err .malformedIdentifier
    | some id => applySetters { Id := id } (format.zip rest)

/-- Embeds parseArticleOverview (client.go lines 316-334). -/
def parseArticleOverview (line : List Char) (format : List OverHeader) : ParseResult :=
  parseItems (splitTab line) format

/-- Embeds one iteration of the switch of Client.overviewFmt (client.go lines
224-253): the header appended for a schema-announcement line, if any. In Go a
switch case does not fall through to the next one, and the bodies of
case ":bytes" and case ":lines" are empty, so those two lines append
nothing. -/
def overviewFmtLine (line : String) : Option OverHeader :=
  if line = "Subject:" then some .subject
  else if line = "From:" then some .frm
  else if line = "Date:" then some .date
  else if line = "Message-ID:" then some .msgId
  else if line = "References:" then some .references
  else if line = ":bytes" then none
  else if line = "Bytes" then some .bytes
  else if line = ":lines" then none
  else if line = "Lines" then some .lines
  else if line = "Xref:full" then some .xrefFull
  else none

/-- Embeds Client.overviewFmt (client.go lines 214-256) at the level of the
already-framed announcement lines: the recognized headers in line order. -/
def overviewFmt (lines : List String) : List OverHeader := lines.filterMap overviewFmtLine

/-- The client state the overview operations touch: the cached negotiated
schema (Client.overViewFormat, client.go line 37). -/
structure ClientState where
  overViewFormat : List OverHeader
deriving DecidableEq

/-- Embeds the negotiation prologue of Client.Over (client.go lines 338-344):
when the cached schema list is empty, LIST OVERVIEW.FMT is issued and its
result assigned to overViewFormat; otherwise nothing is sent or written. The
Bool records whether the negotiation was issued. No later statement of the
operation assigns overViewFormat. -/
def OverPrologue (st : ClientState) (negLines : List String) : Bool × ClientState :=
  if st.overViewFormat = [] then (true, { overViewFormat := overviewFmt negLines })
  else (false, st)

/-- Embeds the negotiation prologue of Client.XOver (client.go lines 444-450),
textually identical to the one of Over. -/
def XOverPrologue (st : ClientState) (negLines : List String) : Bool × ClientState :=
  if st.overViewFormat = [] then (true, { overViewFormat := overviewFmt negLines })
  else (false, st)

/-- Embeds the negotiation prologue of Client.Xzver (client.go lines 478-484),
textually identical to the one of Over. -/
def XzverPrologue (st : ClientState) (negLines : List String) : Bool × ClientState :=
  if st.overViewFormat = [] then (true, { overViewFormat := overviewFmt negLines })
  else (false, st)

/-- The per-line dot-stuffing step shared by the loop of Client.Over
(client.go lines 362-368) and the uncompressed branch of readDotLines
(client.go lines 424-430): a line whose first character is the dot either
ends the response (when it is the whole line) or is delivered with that one
leading dot cut; every other line is delivered as is. none signals
end-of-response. -/
def stuffedDeliver : List Char → Option (List Char)
  | [] => some []
  | c :: rest => if c = '.' then (if rest = [] then none else some rest) else some (c :: rest)

/-- Result of the loop of Client.Over: the collected records with a nil
error, or the error of a failed record parse. -/
inductive OverResult where
  | ok (v : List ArticleOverview)
  | err (e : ParseErr)
deriving DecidableEq

/-- Embeds the read loop of Client.Over (client.go lines 352-376) over the
already-framed response lines, v being the records collected so far. At
end-of-stream ReadLine yields io.EOF, the code stores io.ErrUnexpectedEOF in
err and breaks, but the statement after the loop is return v, nil, so the
stored error is discarded and the caller sees a nil error; the model
therefore returns ok at end-of-stream. A record parse failure is returned as
nil, err. -/
def overLoop (format : List OverHeader) (lines : List (List Char)) (v : List ArticleOverview) :
    OverResult :=
  match lines with
  | [] => .ok v
  | line :: rest =>
    match stuffedDeliver line with
    | none => .ok v
    | some l =>
      match parseArticleOverview l format with
      | .err e => .err e
      | .ok a => overLoop format rest (v ++ [a])

/-- Embeds Client.Over (client.go lines 336-377) at the level of framed
lines: the negotiation prologue (with the announcement lines the server would
return) followed by the read loop, returning the result and the final client
state. -/
def Over (st : ClientState) (negLines : List String) (bodyLines : List (List Char)) :
    OverResult × ClientState :=
  let st2 := (OverPrologue st negLines).2
  (overLoop st2.overViewFormat bodyLines [], st2)

/-- Result of readDotLines: the lines delivered to the callback, or the
unexpected end-of-stream error. -/
inductive DotLinesResult where
  | ok (delivered : List (List Char))
  | unexpectedEOF
deriving DecidableEq

/-- Embeds the uncompressed branch of Client.readDotLines (client.go lines
413-438), with the callback modelled as a collector of the delivered lines:
reaching end-of-stream before a lone-dot line returns io.ErrUnexpectedEOF
(client.go lines 418-419); a lone-dot line breaks the loop and returns nil;
any other line has a single leading dot cut before delivery. -/
def readDotLinesU (lines : List (List Char)) (out : List (List Char)) : DotLinesResult :=
  match lines with
  | [] => .unexpectedEOF
  | line :: rest =>
    match stuffedDeliver line with
    | none => .ok out
    | some l => readDotLinesU rest (out ++ [l])

/-- The whitespace predicate of the Go unicode.IsSpace on ASCII input, as
used by strings.TrimSpace. -/
def goIsSpace (c : Char) : Bool :=
  c = ' ' || c = '\t' || c = '\n' || c = '\x0b' || c = '\x0c' || c = '\r'

/-- Drops leading whitespace, the left half of strings.TrimSpace. -/
def trimLeft (l : List Char) : List Char := l.dropWhile goIsSpace

/-- Drops trailing whitespace, the right half of strings.TrimSpace. -/
def trimRight (l : List Char) : List Char := (l.reverse.dropWhile goIsSpace).reverse

/-- Embeds strings.TrimSpace on ASCII input: both ends trimmed. -/
def goTrimSpace (l : List Char) : List Char := trimLeft (trimRight l)

/-- Embeds the per-line delivery of the compressed branch of
Client.readDotLines (client.go lines 397-412): ReadString hands over the raw
physical line including its CRLF, and the one transformation applied before
the callback is strings.TrimSpace; there is no dot handling on this path. -/
def compressedDeliver (raw : List Char) : List Char := goTrimSpace raw

/-- C1 evidence: the Terminator Scanner does not behave identically when the
terminator bytes are split across writes. Delivering ".", CR, LF as three
1-byte writes leaves Equals(".\r\n") false, while the same three bytes in a
single write make it true. The cause is that ringBuffer.Write never advances
position, so every write restarts at index 0 of the buffer. -/
theorem ringBuffer_split_write_misses_terminator :
    ((((newRingBuffer 3).Write [46]).Write [13]).Write [10]).Equals term = false ∧
    ((newRingBuffer 3).Write [46, 13, 10]).Equals term = true := by
  decide

/-- C2 evidence: for the chunk sequence "ab." then CRLF, whose concatenation
ends in the terminator, readCompressed never sees a match, keeps reading to
end-of-stream, returns the read error, and leaves all five bytes, terminator
included, in the accumulation buffer, where the claim requires a clean stop
with exactly [97, 98] accumulated. -/
theorem readCompressed_split_terminator_not_trimmed :
    readCompressedRun [[97, 98, 46], [13, 10]] =
      (some ReadCompressedErr.transport, [97, 98, 46, 13, 10]) := by
  decide

/-- C9 evidence: after the chunks "a" CR LF and then ".", the ring buffer
reports a terminator match on a 1-byte chunk, so the Go expression
sl[0 : br-3] is evaluated with br = 1 and panics with a slice-bounds error;
the bytes accumulated before the panic are the first chunk. -/
theorem readCompressed_slice_bounds_violation :
    readCompressedRun [[97, 13, 10], [46]] =
      (some ReadCompressedErr.sliceBounds, [97, 13, 10]) := by
  decide

theorem splitOnChar_ne_nil (sep : Char) (l : List Char) : splitOnChar sep l ≠ [] := by
  cases l with
  | nil => simp [splitOnChar]
  | cons c rest =>
    simp only [splitOnChar]
    cases splitOnChar sep rest with
    | nil => simp
    | cons f fs =>
      by_cases hc : c = sep
      · simp [hc]
      · simp [hc]

theorem zip_take_right {α β : Type} (a : List α) (b : List β) :
    a.zip (b.take a.length) = a.zip b := by
  induction a generalizing b with
  | nil => simp
  | cons x xs ih =>
    cases b with
    | nil => simp
    | cons y ys =>
      simp only [List.length_cons, List.take_succ_cons, List.zip_cons_cons, ih]

theorem zip_take_left {α β : Type} (a : List α) (b : List β) :
    (a.take b.length).zip b = a.zip b := by
  induction a generalizing b with
  | nil => simp
  | cons x xs ih =>
    cases b with
    | nil => simp
    | cons y ys =>
      simp only [List.length_cons, List.take_succ_cons, List.zip_cons_cons, ih]

theorem stuffedDeliver_of_head_not_dot (line : List Char) (h : line.headD ' ' ≠ '.') :
    stuffedDeliver line = some line := by
  cases line with
  | nil => rfl
  | cons c rest =>
    have hc : c ≠ '.' := by simpa using h
    simp [stuffedDeliver, hc]

theorem trimRight_append_crlf (s : List Char) :
    trimRight (s ++ ['\r', '\n']) = trimRight s := by
  have h1 : goIsSpace '\n' = true := by decide
  have h2 : goIsSpace '\r' = true := by decide
  simp [trimRight, List.reverse_append, List.dropWhile_cons, h1, h2]

theorem goTrimSpace_append_crlf (s : List Char) :
    goTrimSpace (s ++ ['\r', '\n']) = goTrimSpace s := by
  simp [goTrimSpace, trimRight_append_crlf]

/-- C3 evidence: when the response stream ends before any lone-dot line, the
uncompressed branch of readDotLines returns io.ErrUnexpectedEOF, but
Client.Over returns the records collected so far with a nil error: the
io.ErrUnexpectedEOF it stores on io.EOF is discarded by the final
return v, nil. Here the stream is the single line "1" followed by
end-of-stream. -/
theorem over_eof_returns_nil_error :
    Over { overViewFormat := [OverHeader.subject] } [] [['1']] =
      (.ok [{ Id := 1 }], { overViewFormat := [OverHeader.subject] }) ∧
    readDotLinesU [['1']] [] = .unexpectedEOF := by
  decide

/-- C4 evidence: in overviewFmt the announcement lines ":bytes" and ":lines"
fall into switch cases with empty bodies, and Go switch cases do not fall
through, so those lines are silently dropped instead of mapping to the bytes
and lines tags; only the spellings "Bytes" and "Lines" are appended. -/
theorem overviewFmt_colon_forms_dropped :
    overviewFmt [":bytes", ":lines", "Bytes", "Lines", "Subject:"] =
      [OverHeader.bytes, OverHeader.lines, OverHeader.subject] ∧
    overviewFmtLine ":bytes" = none ∧ overviewFmtLine ":lines" = none := by
  decide

/-- C5 counterexample: on the compressed path a line is not delivered
unmodified: the branch applies strings.TrimSpace to the raw physical line, so
the line whose content is " ..x" (wire form " ..x" CR LF) is delivered as
"..x", with its leading space removed. -/
theorem compressedDeliver_trims_counterexample :
    compressedDeliver (' ' :: '.' :: '.' :: ['x', '\r', '\n']) ≠ (' ' :: '.' :: '.' :: ['x']) := by
  decide

/-- C5 amended: under dot-stuffing a line beginning with two dots is
delivered with exactly one leading dot stripped; on the compressed path no
dot is ever stripped, but the line is delivered with surrounding whitespace
(including the trailing CRLF) trimmed, so a line whose content carries no
leading or trailing whitespace is delivered unmodified. -/
theorem dot_stuffing_amended (rest s : List Char) (hs : goTrimSpace s = s) :
    stuffedDeliver ('.' :: '.' :: rest) = some ('.' :: rest) ∧
    compressedDeliver (s ++ ['\r', '\n']) = s := by
  constructor
  · simp [stuffedDeliver]
  · rw [compressedDeliver, goTrimSpace_append_crlf, hs]

theorem dot_stuffing_amended_witness :
    stuffedDeliver ('.' :: '.' :: ['x']) = some ('.' :: ['x']) ∧
    compressedDeliver (('.' :: '.' :: ['x']) ++ ['\r', '\n']) = ('.' :: '.' :: ['x']) :=
  dot_stuffing_amended ['x'] ('.' :: '.' :: ['x']) (by decide)

/-- C6: a line whose first tab-delimited field does not parse as an unsigned
integer makes parseArticleOverview return the malformed-identifier error and
no record, and a Client.Over call that reaches such a line (with a schema
already cached, so no negotiation runs) returns that error with the cached
schema state unchanged. -/
theorem over_malformed_identifier_state (st : ClientState) (negLines : List String)
    (line : List Char) (rest : List (List Char))
    (hfmt : st.overViewFormat ≠ [])
    (hdot : line.headD ' ' ≠ '.')
    (hbad : parseUintBits ((splitTab line).headD []) 64 = none) :
    parseArticleOverview line st.overViewFormat = .err .malformedIdentifier ∧
    Over st negLines (line :: rest) = (.err .malformedIdentifier, st) := by
  obtain ⟨first, fs, heq⟩ : ∃ f fs, splitTab line = f :: fs := by
    cases h : splitTab line with
    | nil => exact absurd h (splitOnChar_ne_nil '\t' line)
    | cons f fs => exact ⟨f, fs, rfl⟩
  have hbad2 : parseUintBits first 64 = none := by
    rw [heq] at hbad
    simpa using hbad
  have hparse : parseArticleOverview line st.overViewFormat = .err .malformedIdentifier := by
    simp [parseArticleOverview, heq, parseItems, hbad2]
  refine ⟨hparse, ?_⟩
  have hdeliver := stuffedDeliver_of_head_not_dot line hdot
  simp [Over, OverPrologue, hfmt, overLoop, hdeliver, hparse]

theorem over_malformed_identifier_witness :
    parseArticleOverview ['x'] [OverHeader.subject] = .err .malformedIdentifier ∧
    Over { overViewFormat := [OverHeader.subject] } [] [['x']] =
      (.err .malformedIdentifier, { overViewFormat := [OverHeader.subject] }) :=
  over_malformed_identifier_state ⟨[OverHeader.subject]⟩ [] ['x'] []
    (by decide) (by decide) (by decide)

/-- C7: parseArticleOverview applies setters only up to the shorter of the
schema and the field list after the identifier: its result is unchanged both
when the fields beyond the schema length are cut (extra trailing fields are
ignored) and when the schema is cut to the number of fields present
(remaining schema positions are never visited, leaving their record fields at
the zero values); in particular neither length mismatch is by itself an
error. -/
theorem parse_truncation (line : List Char) (format : List OverHeader) :
    parseArticleOverview line format
      = parseItems ((splitTab line).headD [] :: ((splitTab line).drop 1).take format.length)
          format ∧
    parseArticleOverview line format
      = parseItems (splitTab line) (format.take ((splitTab line).drop 1).length) := by
  obtain ⟨first, fs, heq⟩ : ∃ f fs, splitTab line = f :: fs := by
    cases h : splitTab line with
    | nil => exact absurd h (splitOnChar_ne_nil '\t' line)
    | cons f fs => exact ⟨f, fs, rfl⟩
  rw [parseArticleOverview, heq]
  constructor
  · simp only [List.headD_cons, List.drop_succ_cons, List.drop_zero, parseItems, zip_take_right]
  · simp only [List.drop_succ_cons, List.drop_zero, parseItems, zip_take_left]

/-- C8: with the full eight-tag schema, the sample overview line parses into
a record with identifier 12345, subject "Hello World", bytes 1024, lines 20,
and a populated (non-zero) timestamp parsed from the date field. -/
theorem parse_sample_overview_line :
    parseArticleOverview
        ("12345\tHello World\tuser@example.com\tThu, 03 Jan 19 18:58:44 UTC\t<abc@example>\t\t1024\t20\tXref: full").data
        [OverHeader.subject, OverHeader.frm, OverHeader.date, OverHeader.msgId,
         OverHeader.references, OverHeader.bytes, OverHeader.lines, OverHeader.xrefFull]
      = .ok { Id := 12345, Subject := ("Hello World").data, From := ("user@example.com").data,
              Date := { year := 2019, month := 1, day := 3, hour := 18, minute := 58, second := 44 },
              MessageId := ("<abc@example>").data, References := [], Bytes := 1024, Lines := 20,
              XRef := ("Xref: full").data } ∧
    ({ year := 2019, month := 1, day := 3, hour := 18, minute := 58, second := 44 } : Timestamp)
      ≠ {} := by
  decide

/-- C10: each of the three overview operations issues the LIST OVERVIEW.FMT
negotiation exactly when the cached schema list is empty; a call that finds a
non-empty cache leaves the state untouched; and a negotiation that recognizes
zero fields leaves the cache empty, so the next call negotiates again. -/
theorem negotiation_iff_cache_empty (st : ClientState) (nl nl2 : List String) :
    ((OverPrologue st nl).1 = true ↔ st.overViewFormat = []) ∧
    ((XOverPrologue st nl).1 = true ↔ st.overViewFormat = []) ∧
    ((XzverPrologue st nl).1 = true ↔ st.overViewFormat = []) ∧
    (st.overViewFormat ≠ [] →
      (OverPrologue st nl).2 = st ∧ (XOverPrologue st nl).2 = st ∧
        (XzverPrologue st nl).2 = st) ∧
    (overviewFmt nl = [] → st.overViewFormat = [] →
      (OverPrologue st nl).2.overViewFormat = [] ∧
        (XOverPrologue (OverPrologue st nl).2 nl2).1 = true) := by
  refine ⟨?_, ?_, ?_, ?_, ?_⟩
  · unfold OverPrologue
    by_cases h : st.overViewFormat = [] <;> simp [h]
  · unfold XOverPrologue
    by_cases h : st.overViewFormat = [] <;> simp [h]
  · unfold XzverPrologue
    by_cases h : st.overViewFormat = [] <;> simp [h]
  · intro h
    simp [OverPrologue, XOverPrologue, XzverPrologue, h]
  · intro h1 h2
    constructor
    · simp [OverPrologue, h2, h1]
    · simp [OverPrologue, XOverPrologue, h2, h1]

theorem negotiation_iff_cache_empty_witness :
    (OverPrologue { overViewFormat := [OverHeader.subject] } []).2 =
      { overViewFormat := [OverHeader.subject] } ∧
    (XOverPrologue (OverPrologue { overViewFormat := [] } [":bytes"]).2 []).1 = true :=
  ⟨((negotiation_iff_cache_empty ⟨[OverHeader.subject]⟩ [] []).2.2.2.1 (by decide)).1,
   ((negotiation_iff_cache_empty ⟨[]⟩ [":bytes"] []).2.2.2.2 (by decide) (by decide)).2⟩

end NNTPClient
